import Mathlib

/-!
Shallow embedding of the magic-query in-memory query engine: the current
source snapshot consisting of `query.ts` (`findMany` / `findFirst` /
`groupBy`), `utils.ts` (`getValueByPath`, `pathExists`, `matchesFilter`,
`compareValues`), `sort.ts` (`applySorting`), `operators/index.ts`
(`matchesOperators`, `getNestedValue`, `matchesConditions`),
`operators/array.ts`, `operators/comparison.ts`, `operators/date.ts`,
`operators/string.ts` and `guards.ts` (`isEqual` and the type guards).

JavaScript runtime values are modelled by `Value`.  Modelling decisions:
* numbers are `Int` (no claim under study involves fractional values or
  `NaN`);
* a `Date` is identified with its epoch instant (an `Int`); only valid
  dates are representable, as `guards.isDate` rejects invalid ones;
* JS strict equality `===` between two composite values (objects, arrays,
  dates) compares references; a record field and a query literal are
  always distinct heap objects, so `jsStrictEq` is `false` on composite
  values (the cross-origin reading used throughout the engine);
* `String.prototype.localeCompare` is modelled as code-point
  lexicographic comparison, and `toLowerCase` as `Char.toLower`;
* property access ignores the prototype chain: records are plain data;
* `RegExp` testing is not modelled: every definition that can reach the
  `$regex` operator takes an arbitrary total test `rx pattern input`,
  and every theorem is proved for all `rx`.
-/

namespace MagicQuery

/-- The JS runtime values the engine manipulates. -/
inductive Value : Type where
  | null : Value
  | undefined : Value
  | bool : Bool → Value
  | num : Int → Value
  | str : String → Value
  | date : Int → Value
  | arr : List Value → Value
  | obj : List (String × Value) → Value
  deriving Repr

/-- guards.ts `isNullOrUndefined` (`value == null`). -/
def isNullOrUndefined : Value → Bool
  | .null => true
  | .undefined => true
  | _ => false

/-- guards.ts `isObject`: `typeof value === 'object' && value !== null &&
!Array.isArray(value)`.  Note that a JS `Date` instance passes this test. -/
def isObject : Value → Bool
  | .obj _ => true
  | .date _ => true
  | _ => false

/-- guards.ts `isArray`. -/
def isArray : Value → Bool
  | .arr _ => true
  | _ => false

/-- guards.ts `isString`. -/
def isString : Value → Bool
  | .str _ => true
  | _ => false

/-- guards.ts `isNumber`. -/
def isNumber : Value → Bool
  | .num _ => true
  | _ => false

/-- guards.ts `isDate` (`value instanceof Date && !isNaN(value.getTime())`);
every modelled date is valid. -/
def isDate : Value → Bool
  | .date _ => true
  | _ => false

/-- JS boolean coercion: `!v` is true exactly on falsy values. -/
def jsFalsy : Value → Bool
  | .null => true
  | .undefined => true
  | .bool b => !b
  | .num n => n == 0
  | .str s => s == ""
  | _ => false

/-- JS strict equality `===` for a record value against a query literal:
primitives compare by value, composite values are distinct heap objects. -/
def jsStrictEq : Value → Value → Bool
  | .null, .null => true
  | .undefined, .undefined => true
  | .bool a, .bool b => a == b
  | .num a, .num b => a == b
  | .str a, .str b => a == b
  | _, _ => false

/-- JS `typeof`. -/
def typeOf : Value → String
  | .null => "object"
  | .undefined => "undefined"
  | .bool _ => "boolean"
  | .num _ => "number"
  | .str _ => "string"
  | .date _ => "object"
  | .arr _ => "object"
  | .obj _ => "object"

/-- First binding of a key in an object's field list (JS objects have
unique keys; the embedding keeps the first one). -/
def lookupField : List (String × Value) → String → Option Value
  | [], _ => none
  | (k, v) :: rest, key => if k == key then some v else lookupField rest key

/-- Canonical array-index strings: decimal digits with no leading zero,
below the JS array-index bound 2^32 - 1. -/
def canonIndex (s : String) : Option Nat :=
  match s.data with
  | [] => none
  | c :: cs =>
      if (c :: cs).all Char.isDigit && (c != '0' || cs == []) then
        let n := (c :: cs).foldl (fun a d => a * 10 + (d.toNat - 48)) 0
        if n < 4294967295 then some n else none
      else none

/-- JS property read `base[key]` for a non-nullish base: objects look up
own keys, arrays and strings expose `length` and their canonical indices,
other primitives have no own properties. -/
def getField : Value → String → Value
  | .obj fs, k => (lookupField fs k).getD .undefined
  | .arr xs, k =>
      if k == "length" then .num (Int.ofNat xs.length)
      else
        match canonIndex k with
        | some i => xs.getD i .undefined
        | none => .undefined
  | .str s, k =>
      if k == "length" then .num (Int.ofNat s.length)
      else
        match canonIndex k with
        | some i =>
            if i < s.data.length then
              .str (String.mk [s.data.getD i (Char.ofNat 32)])
            else .undefined
        | none => .undefined
  | _, _ => .undefined

/-- JS `key in base` restricted to own properties (records are plain data
with no prototype chain). -/
def hasProp : Value → String → Bool
  | .obj fs, k => (lookupField fs k).isSome
  | .arr xs, k =>
      k == "length" ||
        (match canonIndex k with
         | some i => i < xs.length
         | none => false)
  | _, _ => false

mutual

/-- JS `String(v)`; dates are rendered abstractly but injectively. -/
def jsToString : Value → String
  | .null => "null"
  | .undefined => "undefined"
  | .bool b => if b then "true" else "false"
  | .num n => toString n
  | .str s => s
  | .date t => "Date(" ++ toString t ++ ")"
  | .arr xs => arrToString xs
  | .obj _ => "[object Object]"

/-- JS `Array.prototype.toString`: elements joined by commas with null and
undefined rendered empty. -/
def arrToString : List Value → String
  | [] => ""
  | x :: rest =>
      (match x with
       | .null => ""
       | .undefined => ""
       | v => jsToString v) ++
        (match rest with
         | [] => ""
         | _ => "," ++ arrToString rest)

end

/-- Strict code-point lexicographic order on character lists, modelling the
JS `<` relational operator on strings. -/
def charsLt : List Char → List Char → Bool
  | [], [] => false
  | [], _ :: _ => true
  | _ :: _, [] => false
  | a :: as, b :: bs => a.toNat < b.toNat || (a == b && charsLt as bs)

/-- JS `a < b` on strings. -/
def strLt (a b : String) : Bool := charsLt a.data b.data

/-- Three-way code-point comparison, the model of `localeCompare`. -/
def localeCompare (a b : String) : Int :=
  if a.data = b.data then 0 else if charsLt a.data b.data then -1 else 1

mutual

/-- guards.ts `isEqual`: deep structural equality (arrays element-wise and
order-sensitive, records by key set with recursively equal values, dates
by instant, primitives by identity). -/
def isEqual : Value → Value → Bool
  | .null, .null => true
  | .undefined, .undefined => true
  | .bool a, .bool b => a == b
  | .num a, .num b => a == b
  | .str a, .str b => a == b
  | .date a, .date b => a == b
  | .arr as, .arr bs => isEqualList as bs
  | .obj as, .obj bs => as.length == bs.length && isEqualFields as bs
  | _, _ => false

/-- Element-wise equality of arrays (also enforcing equal length). -/
def isEqualList : List Value → List Value → Bool
  | [], [] => true
  | a :: as, b :: bs => isEqual a b && isEqualList as bs
  | _, _ => false

/-- `k in b && isEqual(a[k], b[k])` for every key of the left record. -/
def isEqualFields : List (String × Value) → List (String × Value) → Bool
  | [], _ => true
  | (k, va) :: rest, bs => lookupEq va k bs && isEqualFields rest bs

/-- Find key `k` in the right record and compare deeply. -/
def lookupEq (va : Value) (k : String) : List (String × Value) → Bool
  | [] => false
  | (k2, vb) :: rest => if k2 == k then isEqual va vb else lookupEq va k rest

end

/-- operators/array.ts `arrayIncludesShallow`: `array.includes(value)`
(strict equality). -/
def arrayIncludesShallow (array : List Value) (value : Value) : Bool :=
  array.any (fun item => jsStrictEq item value)

/-- operators/array.ts `arrayIncludes`: inclusion up to `isEqual`. -/
def arrayIncludes (array : List Value) (value : Value) : Bool :=
  array.any (fun item => isEqual item value)

/-- operators/array.ts `arrayContainsAll`: shallow comparison for
primitive needles, deep for object needles. -/
def arrayContainsAll (haystack needles : List Value) : Bool :=
  if needles.length == 0 then true
  else if needles.length > haystack.length then false
  else
    needles.all (fun needle =>
      if isObject needle then arrayIncludes haystack needle
      else arrayIncludesShallow haystack needle)

/-- operators/comparison.ts `isGreaterThan` (numbers, then strings). -/
def isGreaterThan : Value → Value → Bool
  | .num a, .num b => a > b
  | .str a, .str b => strLt b a
  | _, _ => false

/-- operators/comparison.ts `isGreaterThanOrEqual`. -/
def isGreaterThanOrEqual : Value → Value → Bool
  | .num a, .num b => a ≥ b
  | .str a, .str b => !strLt a b
  | _, _ => false

/-- operators/comparison.ts `isLessThan`. -/
def isLessThan : Value → Value → Bool
  | .num a, .num b => a < b
  | .str a, .str b => strLt a b
  | _, _ => false

/-- operators/comparison.ts `isLessThanOrEqual`. -/
def isLessThanOrEqual : Value → Value → Bool
  | .num a, .num b => a ≤ b
  | .str a, .str b => !strLt b a
  | _, _ => false

/-- operators/comparison.ts `isBetween` (inclusive, numbers or strings). -/
def isBetween : Value → Value → Value → Bool
  | .num v, .num mn, .num mx => mn ≤ v && v ≤ mx
  | .str v, .str mn, .str mx => !strLt v mn && !strLt mx v
  | _, _, _ => false

/-- operators/date.ts `isDateGreaterThan`. -/
def isDateGreaterThan : Value → Value → Bool
  | .date a, .date b => a > b
  | _, _ => false

/-- operators/date.ts `isDateGreaterThanOrEqual`. -/
def isDateGreaterThanOrEqual : Value → Value → Bool
  | .date a, .date b => a ≥ b
  | _, _ => false

/-- operators/date.ts `isDateLessThan`. -/
def isDateLessThan : Value → Value → Bool
  | .date a, .date b => a < b
  | _, _ => false

/-- operators/date.ts `isDateLessThanOrEqual`. -/
def isDateLessThanOrEqual : Value → Value → Bool
  | .date a, .date b => a ≤ b
  | _, _ => false

/-- operators/date.ts `isDateBetween` (inclusive). -/
def isDateBetween : Value → Value → Value → Bool
  | .date v, .date mn, .date mx => mn ≤ v && v ≤ mx
  | _, _, _ => false

/-- Model of `String.prototype.toLowerCase`. -/
def toLowerStr (s : String) : String := String.mk (s.data.map Char.toLower)

/-- `b` is an initial segment of `a` (JS `a.startsWith(b)`). -/
def charsLeadWith : List Char → List Char → Bool
  | _, [] => true
  | [], _ :: _ => false
  | a :: as, b :: bs => a == b && charsLeadWith as bs

/-- Substring occurrence (JS `a.includes(b)`). -/
def charsHaveSub : List Char → List Char → Bool
  | hay, sub =>
    match hay with
    | [] => sub.isEmpty
    | _ :: rest => charsLeadWith hay sub || charsHaveSub rest sub

/-- operators/string.ts `stringContainsIgnoreCase`. -/
def stringContainsIgnoreCase (s sub : String) : Bool :=
  charsHaveSub (toLowerStr s).data (toLowerStr sub).data

/-- Does the operator key start with the `$` sigil
(`operator.charCodeAt(0) === 36`)? -/
def startsDollar (s : String) : Bool :=
  match s.data with
  | c :: _ => c == '$'
  | [] => false

/-- Split a character list on a separator, JS `String.prototype.split`
with a single-character separator. -/
def splitOnChar (sep : Char) : List Char → List (List Char)
  | [] => [[]]
  | c :: rest =>
      match splitOnChar sep rest with
      | [] => [[]]
      | grp :: grps => if c == sep then [] :: grp :: grps else (c :: grp) :: grps

/-- `path.split('.')`. -/
def splitDots (s : String) : List String := (splitOnChar '.' s.data).map String.mk

/-- `path.indexOf('.') !== -1` (equivalently `path.includes('.')`). -/
def hasDot (s : String) : Bool := s.data.any (fun c => c == '.')

/-- part_003 helper `getNestedValue`: bracket-access walk stopping only on
nullish intermediates (the walk itself, shared with `getValueByPath`'s
general case). -/
def nestedWalk : Value → List String → Value
  | cur, [] => cur
  | cur, p :: rest =>
      if isNullOrUndefined cur then cur else nestedWalk (getField cur p) rest

/-- operators/index.ts local `getNestedValue`. -/
def getNestedValue (o : Value) (path : String) : Value :=
  if jsFalsy o || path == "" then .undefined
  else if !hasDot path then getField o path
  else nestedWalk o (splitDots path)

/-- The non-recursive arms of the operator switch in
operators/index.ts `matchesOperators`.  Each of these operators either
lets the key loop continue (its check holds) or makes the whole call
return false, so the loop consumes `some check` as `check && rest`;
`none` is an unrecognised `$`-operator (`default: continue`). -/
def evalSimpleOp (rx : String → String → Bool) (operator : String)
    (value condition : Value) : Option Bool :=
  if operator == "$eq" then some (isEqual value condition)
  else if operator == "$ne" then some (!isEqual value condition)
  else if operator == "$gte" then
    some (isGreaterThanOrEqual value condition ||
      isDateGreaterThanOrEqual value condition)
  else if operator == "$gt" then
    some (isGreaterThan value condition || isDateGreaterThan value condition)
  else if operator == "$lt" then
    some (isLessThan value condition || isDateLessThan value condition)
  else if operator == "$lte" then
    some (isLessThanOrEqual value condition ||
      isDateLessThanOrEqual value condition)
  else if operator == "$in" then
    match condition with
    | .arr items =>
        if items.isEmpty then some false
        else
          some (if isObject value then arrayIncludes items value
                else arrayIncludesShallow items value)
    | _ => some false
  else if operator == "$nin" then
    match condition with
    | .arr items =>
        if items.isEmpty then some false
        else
          some (!(if isObject value then arrayIncludes items value
                  else arrayIncludesShallow items value))
    | _ => some false
  else if operator == "$contains" then
    match value, condition with
    | .str s, .str c => some (stringContainsIgnoreCase s c)
    | .arr items, c =>
        let foundStr :=
          match c with
          | .str cs =>
              items.any (fun it =>
                match it with
                | .str si => stringContainsIgnoreCase si cs
                | _ => false)
          | _ => false
        some (if foundStr then true
              else if isObject c then arrayIncludes items c
              else arrayIncludesShallow items c)
    | _, _ => some false
  else if operator == "$between" then
    match condition with
    | .arr [mn, mx] =>
        some (isBetween value mn mx || isDateBetween value mn mx)
    | .arr _ => some false
    | c =>
        if isObject c then
          some (isBetween value (getField c "min") (getField c "max") ||
            isDateBetween value (getField c "min") (getField c "max"))
        else some false
  else if operator == "$exists" then
    match condition with
    | .bool b => some (b == !isNullOrUndefined value)
    | _ => some false
  else if operator == "$all" then
    match value, condition with
    | .arr vs, .arr cs => some (arrayContainsAll vs cs)
    | _, _ => some false
  else if operator == "$startsWith" then
    match value, condition with
    | .str s, .str c => some (charsLeadWith (toLowerStr s).data (toLowerStr c).data)
    | _, _ => some false
  else if operator == "$endsWith" then
    match value, condition with
    | .str s, .str c =>
        some (charsLeadWith (toLowerStr s).data.reverse (toLowerStr c).data.reverse)
    | _, _ => some false
  else if operator == "$regex" then
    match value, condition with
    | .str s, .str c => some (rx c s)
    | _, _ => some false
  else if operator == "$size" then
    match condition with
    | .num n =>
        if n < 0 then some false
        else
          match value with
          | .arr xs => some (Int.ofNat xs.length == n)
          | .str s => some (Int.ofNat s.length == n)
          | _ => some false
    | _ => some false
  else none

mutual

/-- operators/index.ts `matchesOperators`: a non-object condition is
strict equality; an object condition is iterated key by key (a `Date`
condition has no enumerable keys, so the loop body never runs); an array
condition is iterated over its index keys, none of which carry the `$`
sigil. -/
def matchesOperators (rx : String → String → Bool) (value operators : Value) : Bool :=
  match operators with
  | .obj ops => matchOps rx value ops
  | .arr elems => matchOpsArr rx value 0 elems
  | .date _ => true
  | op => jsStrictEq value op
termination_by (sizeOf operators, sizeOf value)

/-- The `for (const operator in ops)` loop of `matchesOperators` over an
object condition.  A found `$elemMatch` returns true for the whole call
without visiting the remaining keys. -/
def matchOps (rx : String → String → Bool) (value : Value) :
    List (String × Value) → Bool
  | [] => true
  | (operator, condition) :: rest =>
    if startsDollar operator then
      if operator == "$elemMatch" then
        match value with
        | .arr items => elemMatchLoop rx items condition
        | _ => false
      else
        match evalSimpleOp rx operator value condition with
        | some b => b && matchOps rx value rest
        | none => matchOps rx value rest
    else
      (if isObject value then matchesOperators rx (getField value operator) condition
       else jsStrictEq value condition) && matchOps rx value rest
termination_by l => (sizeOf l, sizeOf value)

/-- The same loop over an array condition: `for..in` enumerates index
keys `"0"`, `"1"`, ..., which never carry the `$` sigil. -/
def matchOpsArr (rx : String → String → Bool) (value : Value) :
    Nat → List Value → Bool
  | _, [] => true
  | i, c :: rest =>
      (if isObject value then matchesOperators rx (getField value (toString i)) c
       else jsStrictEq value c) && matchOpsArr rx value (i + 1) rest
termination_by _ l => (sizeOf l, sizeOf value)

/-- The `$elemMatch` scan: the first object element satisfying
`matchesConditions` makes the whole `matchesOperators` call return true. -/
def elemMatchLoop (rx : String → String → Bool) :
    List Value → Value → Bool
  | [], _ => false
  | item :: rest, condition =>
      (isObject item && matchesConditions rx item condition) ||
        elemMatchLoop rx rest condition
termination_by l c => (sizeOf c, sizeOf l)

/-- operators/index.ts `matchesConditions`, used by `$elemMatch`: each key
of the sub-filter is resolved with `getNestedValue` and checked with
`matchesOperators`; a non-object sub-filter enumerates no keys. -/
def matchesConditions (rx : String → String → Bool) (o conditions : Value) : Bool :=
  match conditions with
  | .obj cfs => condList rx o cfs
  | .arr elems => condArr rx o 0 elems
  | _ => true
termination_by (sizeOf conditions, sizeOf o)

/-- Key loop of `matchesConditions` over an object sub-filter. -/
def condList (rx : String → String → Bool) (o : Value) :
    List (String × Value) → Bool
  | [] => true
  | (key, condition) :: rest =>
      matchesOperators rx (getNestedValue o key) condition && condList rx o rest
termination_by l => (sizeOf l, sizeOf o)

/-- Key loop of `matchesConditions` over an array sub-filter (index keys). -/
def condArr (rx : String → String → Bool) (o : Value) :
    Nat → List Value → Bool
  | _, [] => true
  | i, c :: rest =>
      matchesOperators rx (getNestedValue o (toString i)) c && condArr rx o (i + 1) rest
termination_by _ l => (sizeOf l, sizeOf o)

end

/-- The logical combinator keys of utils.ts `matchesFilter`. -/
def isLogicalKey (k : String) : Bool :=
  k == "$and" || k == "$or" || k == "$not" || k == "$nor"

/-- Discriminator for the `undefined` value. -/
def isUndefined : Value → Bool
  | .undefined => true
  | _ => false

/-- utils.ts `getValueByPath` (the per-path accessor cache is semantically
transparent): specialised two- and three-segment accessors short-circuit
nullish intermediates to `undefined`; longer paths use the general walk,
which stops at (and returns) a nullish intermediate. -/
def getValueByPath (o : Value) (path : String) : Value :=
  if jsFalsy o || path == "" then .undefined
  else if !hasDot path then getField o path
  else
    match splitDots path with
    | [p0, p1] =>
        let obj1 := getField o p0
        if isNullOrUndefined obj1 then .undefined else getField obj1 p1
    | [p0, p1, p2] =>
        let obj1 := getField o p0
        if isNullOrUndefined obj1 then .undefined
        else
          let obj2 := getField obj1 p1
          if isNullOrUndefined obj2 then .undefined else getField obj2 p2
    | parts => nestedWalk o parts

/-- The structural walk of utils.ts `pathExists`: every value before the
last segment must be a plain container, and the last segment is tested
with the `in` operator. -/
def existsWalk : Value → List String → Bool
  | cur, [last] =>
      if isNullOrUndefined cur || !isObject cur then false else hasProp cur last
  | cur, p :: rest =>
      if isNullOrUndefined cur || !isObject cur then false
      else existsWalk (getField cur p) rest
  | _, [] => false

/-- utils.ts `pathExists`. -/
def pathExists (o : Value) (path : String) : Bool :=
  if jsFalsy o || path == "" then false
  else if !hasDot path then hasProp o path
  else existsWalk o (splitDots path)

mutual

/-- utils.ts `matchesFilter`: logical keys are processed in the fixed
order `$and`, `$or`, `$not`, `$nor`, then field keys in insertion order
(with the `$exists` special case).  A `Date` filter passes `isObject` but
enumerates no keys. -/
def matchesFilter (rx : String → String → Bool) (o filter : Value) : Bool :=
  match filter with
  | .obj ffs =>
      if !isObject o then false
      else
        let hasLogical := ffs.any (fun kv => isLogicalKey kv.1)
        let hasFields := ffs.any (fun kv => !isLogicalKey kv.1 && !isUndefined kv.2)
        (if hasLogical then
           andOk rx o ffs && orOk rx o ffs && notOk rx o ffs && norOk rx o ffs
         else true) &&
          (if hasFields then fieldsOk rx o ffs else true)
  | .date _ => if !isObject o then false else true
  | _ => false
termination_by sizeOf filter

/-- `'$and' in filter`: every sub-filter of an array argument must match;
non-array arguments are ignored. -/
def andOk (rx : String → String → Bool) (o : Value) :
    List (String × Value) → Bool
  | [] => true
  | (k, v) :: rest =>
      if k == "$and" then
        match v with
        | .arr subs => allFilters rx o subs
        | _ => true
      else andOk rx o rest
termination_by l => sizeOf l

/-- `'$or' in filter`: at least one sub-filter of an array argument must
match (an empty array fails); non-array arguments are ignored. -/
def orOk (rx : String → String → Bool) (o : Value) :
    List (String × Value) → Bool
  | [] => true
  | (k, v) :: rest =>
      if k == "$or" then
        match v with
        | .arr subs => anyFilters rx o subs
        | _ => true
      else orOk rx o rest
termination_by l => sizeOf l

/-- `'$not' in filter`: a non-nullish, non-array object argument must not
match; anything else is ignored. -/
def notOk (rx : String → String → Bool) (o : Value) :
    List (String × Value) → Bool
  | [] => true
  | (k, v) :: rest =>
      if k == "$not" then
        match v with
        | .obj nfs => !matchesFilter rx o (.obj nfs)
        | .date t => !matchesFilter rx o (.date t)
        | _ => true
      else notOk rx o rest
termination_by l => sizeOf l

/-- `'$nor' in filter`: no sub-filter of an array argument may match. -/
def norOk (rx : String → String → Bool) (o : Value) :
    List (String × Value) → Bool
  | [] => true
  | (k, v) :: rest =>
      if k == "$nor" then
        match v with
        | .arr subs => noneFilters rx o subs
        | _ => true
      else norOk rx o rest
termination_by l => sizeOf l

/-- Conjunction of `matchesFilter` over a list of filters (also the
`matchesAll` loop of query.ts for an array-valued `where`). -/
def allFilters (rx : String → String → Bool) (o : Value) : List Value → Bool
  | [] => true
  | f :: rest => matchesFilter rx o f && allFilters rx o rest
termination_by l => sizeOf l

/-- Disjunction of `matchesFilter` over a list of filters. -/
def anyFilters (rx : String → String → Bool) (o : Value) : List Value → Bool
  | [] => false
  | f :: rest => matchesFilter rx o f || anyFilters rx o rest
termination_by l => sizeOf l

/-- No filter in the list matches. -/
def noneFilters (rx : String → String → Bool) (o : Value) : List Value → Bool
  | [] => true
  | f :: rest => !matchesFilter rx o f && noneFilters rx o rest
termination_by l => sizeOf l

/-- The field-key loop of `matchesFilter`: a condition object containing a
boolean `$exists` is tested against structural `pathExists` first, and any
remaining operator keys are then evaluated against the resolved value. -/
def fieldsOk (rx : String → String → Bool) (o : Value) :
    List (String × Value) → Bool
  | [] => true
  | (key, condition) :: rest =>
      if isLogicalKey key then fieldsOk rx o rest
      else if isUndefined condition then fieldsOk rx o rest
      else
        (match condition with
         | .obj cfs =>
             match lookupField cfs "$exists" with
             | some (.bool b) =>
                 (b == pathExists o key) &&
                   (let others := cfs.filter (fun kv => kv.1 != "$exists")
                    others.isEmpty ||
                      matchesOperators rx (getValueByPath o key) (.obj others))
             | _ => matchesOperators rx (getValueByPath o key) condition
         | _ => matchesOperators rx (getValueByPath o key) condition) &&
          fieldsOk rx o rest
termination_by l => sizeOf l

end

/-- utils.ts `compareValues`. -/
def compareValues (a b : Value) : Int :=
  if jsStrictEq a b then 0
  else if typeOf a == typeOf b then
    match a, b with
    | .str x, .str y => localeCompare x y
    | .num x, .num y => x - y
    | .bool x, .bool y => if x == y then 0 else if x then 1 else -1
    | .date x, .date y => x - y
    | _, _ => localeCompare (jsToString a) (jsToString b)
  else localeCompare (jsToString a) (jsToString b)

/-- Sort direction. -/
inductive Dir : Type where
  | asc : Dir
  | desc : Dir
  deriving Repr, DecidableEq

/-- The comparator closure of sort.ts `applySorting`: successive `orderBy`
entries break ties; nullish values sort last regardless of direction;
`desc` negates the per-key comparison. -/
def sortCmp (orderEntries : List (String × Dir)) (a b : Value) : Int :=
  match orderEntries with
  | [] => 0
  | (field, direction) :: rest =>
      let aValue := getValueByPath a field
      let bValue := getValueByPath b field
      if isNullOrUndefined aValue && isNullOrUndefined bValue then sortCmp rest a b
      else if isNullOrUndefined aValue then 1
      else if isNullOrUndefined bValue then -1
      else
        let comparison := compareValues aValue bValue
        if comparison != 0 then
          if direction == Dir.desc then -comparison else comparison
        else sortCmp rest a b

/-- One step of the stable sort model: insert before the first element the
comparator does not order strictly after. -/
def insertByCmp (cmp : Value → Value → Int) (x : Value) : List Value → List Value
  | [] => [x]
  | y :: ys => if cmp x y ≤ 0 then x :: y :: ys else y :: insertByCmp cmp x ys

/-- Stable comparator sort modelling ES2019+ `Array.prototype.sort`. -/
def sortByCmp (cmp : Value → Value → Int) : List Value → List Value
  | [] => []
  | x :: rest => insertByCmp cmp x (sortByCmp cmp rest)

/-- sort.ts `applySorting`. -/
def applySorting (items : List Value) (orderBy : List (String × Dir)) : List Value :=
  if orderBy.isEmpty then items else sortByCmp (sortCmp orderBy) items

/-- A query: the optional `where` filter and the `Object.entries` of the
optional `orderBy` (both defaults mean no constraint). -/
structure Query : Type where
  whereQ : Option Value := none
  orderBy : List (String × Dir) := []

/-- `const { where = {} } = query`: the default also fires when the
property is present with value `undefined`. -/
def resolveWhere : Option Value → Value
  | none => .obj []
  | some .undefined => .obj []
  | some w => w

/-- The guard of the single-key fast path in query.ts `findMany`:
`!field.includes('.') && (cond === null || (!isObject(cond) && !isArray(cond)))`. -/
def fastPathEligible (field : String) (cond : Value) : Bool :=
  !hasDot field &&
    (match cond with
     | .null => true
     | c => !isObject c && !isArray c)

/-- query.ts `findMany`: an array `where` is an AND of sub-filters; an
object `where` with exactly one dot-free key bound to a primitive
condition takes the strict-equality fast path; every other object goes
through `matchesFilter`; an invalid `where` matches everything; the
result is passed to `applySorting`. -/
def findMany (rx : String → String → Bool) (objects : List Value) (q : Query) :
    List Value :=
  let w := resolveWhere q.whereQ
  if objects.isEmpty then []
  else
    let result :=
      match w with
      | .arr conds => objects.filter (fun o => allFilters rx o conds)
      | .obj [(field, cond)] =>
          if fastPathEligible field cond then
            objects.filter (fun o => jsStrictEq (getField o field) cond)
          else objects.filter (fun o => matchesFilter rx o w)
      | .obj _ => objects.filter (fun o => matchesFilter rx o w)
      | .date _ => objects.filter (fun o => matchesFilter rx o w)
      | _ => objects
    applySorting result q.orderBy

/-- query.ts `findFirst`: same filtering semantics, first match only,
`orderBy` never consulted. -/
def findFirst (rx : String → String → Bool) (objects : List Value) (q : Query) :
    Option Value :=
  let w := resolveWhere q.whereQ
  if objects.isEmpty then none
  else
    match w with
    | .arr conds => objects.find? (fun o => allFilters rx o conds)
    | _ => objects.find? (fun o => matchesFilter rx o w)

/-- The group key of query.ts `groupBy`: `String(groupVal ?? 'undefined')`. -/
def jsGroupKey (field : String) (o : Value) : String :=
  let groupVal := getValueByPath o field
  if isNullOrUndefined groupVal then "undefined" else jsToString groupVal

/-- `groups[groupKey].push(obj)`, creating the bucket on first sight. -/
def addToGroups (key : String) (o : Value) :
    List (String × List Value) → List (String × List Value)
  | [] => [(key, [o])]
  | (k, items) :: rest =>
      if k == key then (k, items ++ [o]) :: rest
      else (k, items) :: addToGroups key o rest

/-- First bucket bound to a name (the record field lookup `groups[key]`). -/
def lookupBucket (n : String) : List (String × List Value) → Option (List Value)
  | [] => none
  | (k, items) :: rest => if k == n then some items else lookupBucket n rest

/-- The grouping loop of `groupBy` over the filtered records. -/
def buildGroups (field : String) : List Value → List (String × List Value) →
    List (String × List Value)
  | [], groups => groups
  | o :: rest, groups =>
      buildGroups field rest (addToGroups (jsGroupKey field o) o groups)

/-- Ascending insertion by numeric key (array-index keys are unique). -/
def insertIdx (x : Nat × (String × List Value)) :
    List (Nat × (String × List Value)) → List (Nat × (String × List Value))
  | [] => [x]
  | y :: ys => if x.1 ≤ y.1 then x :: y :: ys else y :: insertIdx x ys

/-- Sort the array-index-keyed buckets ascending. -/
def sortIdx : List (Nat × (String × List Value)) → List (Nat × (String × List Value))
  | [] => []
  | x :: rest => insertIdx x (sortIdx rest)

/-- JS own-key enumeration order (`Object.entries`): array-index-like keys
first in ascending numeric order, then the remaining keys in insertion
order. -/
def jsEntriesOrder (groups : List (String × List Value)) : List (String × List Value) :=
  let idx := groups.filterMap (fun g => (canonIndex g.1).map (fun n => (n, g)))
  (sortIdx idx).map Prod.snd ++ groups.filter (fun g => (canonIndex g.1).isNone)

/-- query.ts `groupBy`: filter (and sort) with `findMany`, bucket by
`jsGroupKey` into a string-keyed record, return its `Object.entries`. -/
def groupBy (rx : String → String → Bool) (objects : List Value) (field : String)
    (q : Query) : List (String × List Value) :=
  if objects.isEmpty then []
  else
    let filteredObjects := findMany rx objects q
    if filteredObjects.isEmpty then []
    else jsEntriesOrder (buildGroups field filteredObjects [])

/-- A plain data object (excludes dates, unlike guards.ts `isObject`). -/
def isPlainObject : Value → Bool
  | .obj _ => true
  | _ => false

/-- Group names in order of first occurrence, continuing from `names`. -/
def firstSeenFrom (field : String) (names : List String) : List Value → List String
  | [] => names
  | r :: rest =>
      firstSeenFrom field
        (if names.contains (jsGroupKey field r) then names
         else names ++ [jsGroupKey field r]) rest

/-- Group names in order of first occurrence in a record list. -/
def firstSeenKeys (field : String) (l : List Value) : List String :=
  firstSeenFrom field [] l

/-- A regex tester that never matches, used to instantiate the `rx`
parameter in concrete counterexamples and witnesses (none of which
involve `$regex`). -/
def rxNone : String → String → Bool := fun _ _ => false

/-- Side conditions under which `findFirst` agrees with the head of
`findMany`: an array-valued `where` always does; a single-key mapping
must, whenever it is eligible for the primitive-equality fast path, bind
a nonempty non-logical key to a non-undefined condition; other mappings
(and date objects, which enumerate no keys) always agree; a non-filter
`where` does not. -/
def whereSafe : Value → Prop
  | .arr _ => True
  | .obj [(f, c)] =>
      fastPathEligible f c = true →
        ((f == "") = false ∧ isLogicalKey f = false ∧ isUndefined c = false)
  | .obj _ => True
  | .date _ => True
  | _ => False

/-! ## Helper lemmas -/

theorem find?_eq_filter_head (p : Value → Bool) (l : List Value) :
    l.find? p = (l.filter p).head? := by
  induction l with
  | nil => rfl
  | cons x rest ih =>
      cases h : p x
      · rw [List.find?_cons_of_neg _ (by simp [h]),
          List.filter_cons_of_neg (by simp [h]), ih]
      · rw [List.find?_cons_of_pos _ (by simp [h]),
          List.filter_cons_of_pos (by simp [h])]
        rfl

theorem splitOnChar_of_no_sep (sep : Char) (l : List Char)
    (h : ∀ c ∈ l, (c == sep) = false) : splitOnChar sep l = [l] := by
  induction l with
  | nil => rfl
  | cons c rest ih =>
      have hc := h c (by simp)
      have hrest := ih (fun d hd => h d (by simp [hd]))
      simp [splitOnChar, hrest, hc]

theorem splitDots_of_no_dot (s : String) (h : hasDot s = false) :
    splitDots s = [s] := by
  have hall : ∀ c ∈ s.data, (c == '.') = false := by
    intro c hc
    cases hne : (c == '.')
    · rfl
    · exfalso
      have hany : (s.data.any fun d => d == '.') = true :=
        List.any_eq_true.mpr ⟨c, hc, hne⟩
      unfold hasDot at h
      rw [h] at hany
      exact Bool.noConfusion hany
  rw [splitDots, splitOnChar_of_no_sep _ _ hall]
  simp

theorem insertByCmp_perm (cmp : Value → Value → Int) (x : Value) (l : List Value) :
    (insertByCmp cmp x l).Perm (x :: l) := by
  induction l with
  | nil => exact List.Perm.refl _
  | cons y ys ih =>
      by_cases hc : cmp x y ≤ 0
      · rw [insertByCmp, if_pos hc]
      · rw [insertByCmp, if_neg hc]
        exact (List.Perm.cons y ih).trans (List.Perm.swap x y ys)

theorem sortByCmp_perm (cmp : Value → Value → Int) (l : List Value) :
    (sortByCmp cmp l).Perm l := by
  induction l with
  | nil => exact List.Perm.refl _
  | cons x rest ih =>
      exact (insertByCmp_perm cmp x _).trans (List.Perm.cons x ih)

theorem insertByCmp_pass (cmp : Value → Value → Int) (x : Value) (A B : List Value)
    (h : ∀ a ∈ A, ¬cmp x a ≤ 0) :
    insertByCmp cmp x (A ++ B) = A ++ insertByCmp cmp x B := by
  induction A with
  | nil => rfl
  | cons a A ih =>
      have ha := h a (by simp)
      have ih2 := ih (fun a2 ha2 => h a2 (by simp [ha2]))
      simp [List.cons_append, insertByCmp, if_neg ha, ih2]

theorem insertByCmp_stop (cmp : Value → Value → Int) (x : Value) (B : List Value)
    (h : ∀ b ∈ B, cmp x b ≤ 0) : insertByCmp cmp x B = x :: B := by
  cases B with
  | nil => rfl
  | cons b bs => simp [insertByCmp, h b (by simp)]

theorem insertByCmp_tail (cmp : Value → Value → Int) (x : Value) (A B : List Value)
    (h : ∀ b ∈ B, cmp x b ≤ 0) :
    insertByCmp cmp x (A ++ B) = insertByCmp cmp x A ++ B := by
  induction A with
  | nil => simp [insertByCmp, insertByCmp_stop cmp x B h]
  | cons a A ih =>
      by_cases hc : cmp x a ≤ 0 <;>
        simp [insertByCmp, hc, ih]

theorem sortByCmp_split (cmp : Value → Value → Int) (P : Value → Bool) (l : List Value)
    (hab : ∀ a b, P a = false → P b = true → ¬cmp a b ≤ 0)
    (hpa : ∀ a b, P a = true → P b = false → cmp a b ≤ 0)
    (haa : ∀ a b, P a = false → P b = false → cmp a b ≤ 0) :
    sortByCmp cmp l = sortByCmp cmp (l.filter P) ++ l.filter (fun r => !P r) := by
  induction l with
  | nil => rfl
  | cons x rest ih =>
      by_cases hx2 : P x
      · rw [sortByCmp, ih, List.filter_cons_of_pos (by simp [hx2]),
          List.filter_cons_of_neg (by simp [hx2]), sortByCmp]
        apply insertByCmp_tail
        intro b hb
        exact hpa x b hx2 (by simpa using (List.mem_filter.mp hb).2)
      · have hS : ∀ a ∈ sortByCmp cmp (List.filter P rest), ¬cmp x a ≤ 0 := by
          intro a ha
          have ha2 : a ∈ List.filter P rest := (sortByCmp_perm cmp _).mem_iff.mp ha
          exact hab x a (by simpa using hx2) (List.mem_filter.mp ha2).2
        have hB : ∀ b ∈ List.filter (fun r => !P r) rest, cmp x b ≤ 0 := by
          intro b hb
          exact haa x b (by simpa using hx2) (by simpa using (List.mem_filter.mp hb).2)
        rw [sortByCmp, ih, List.filter_cons_of_neg (by simpa using hx2),
          List.filter_cons_of_pos (by simpa using hx2),
          insertByCmp_pass cmp x _ _ hS, insertByCmp_stop cmp x _ hB]

theorem filter_insertByCmp (cmp : Value → Value → Int) (p : Value → Bool)
    (x : Value) (l : List Value)
    (h : ∀ a b, p a = true → p b = true → cmp a b = 0) :
    (insertByCmp cmp x l).filter p = ((x :: l).filter p) := by
  induction l with
  | nil => rfl
  | cons y ys ih =>
      by_cases hc : cmp x y ≤ 0
      · rw [insertByCmp, if_pos hc]
      · rw [insertByCmp, if_neg hc]
        by_cases hpx : p x <;> by_cases hpy : p y
        · exact absurd (by simp [h x y hpx hpy] : cmp x y ≤ 0) hc
        all_goals
          simp only [List.filter_cons, hpx, hpy, Bool.false_eq_true, if_false, if_true]
          simp only [List.filter_cons, hpx, Bool.false_eq_true, if_false, if_true] at ih
          simp [ih, List.filter_cons, hpy]

theorem filter_sortByCmp (cmp : Value → Value → Int) (p : Value → Bool) (l : List Value)
    (h : ∀ a b, p a = true → p b = true → cmp a b = 0) :
    (sortByCmp cmp l).filter p = l.filter p := by
  induction l with
  | nil => rfl
  | cons x rest ih =>
      rw [sortByCmp, filter_insertByCmp cmp p x _ h]
      simp only [List.filter_cons]
      cases hpx : p x <;> simp [ih]

/-! ## Single-operator evaluation lemmas -/

theorem matchesOperators_single_eq (rx : String → String → Bool) (v c : Value) :
    matchesOperators rx v (.obj [("$eq", c)]) = isEqual v c := by
  simp [matchesOperators, matchOps.eq_def, evalSimpleOp, startsDollar]

theorem matchesOperators_single_gt (rx : String → String → Bool) (v c : Value) :
    matchesOperators rx v (.obj [("$gt", c)]) =
      (isGreaterThan v c || isDateGreaterThan v c) := by
  simp [matchesOperators, matchOps.eq_def, evalSimpleOp, startsDollar]

theorem matchesOperators_single_gte (rx : String → String → Bool) (v c : Value) :
    matchesOperators rx v (.obj [("$gte", c)]) =
      (isGreaterThanOrEqual v c || isDateGreaterThanOrEqual v c) := by
  simp [matchesOperators, matchOps.eq_def, evalSimpleOp, startsDollar]

theorem matchesOperators_single_lt (rx : String → String → Bool) (v c : Value) :
    matchesOperators rx v (.obj [("$lt", c)]) =
      (isLessThan v c || isDateLessThan v c) := by
  simp [matchesOperators, matchOps.eq_def, evalSimpleOp, startsDollar]

theorem matchesOperators_single_lte (rx : String → String → Bool) (v c : Value) :
    matchesOperators rx v (.obj [("$lte", c)]) =
      (isLessThanOrEqual v c || isDateLessThanOrEqual v c) := by
  simp [matchesOperators, matchOps.eq_def, evalSimpleOp, startsDollar]

/-! ## Claims -/

/-- C3 (amended): on the current operator matcher an empty-array condition
fails BOTH membership operators: `{$in: []}` evaluates to false as the
claim states, but `{$nin: []}` also evaluates to false (the `isEmpty`
guard rejects it), not true. -/
theorem c3_empty_array_membership (rx : String → String → Bool) (v : Value) :
    matchesOperators rx v (.obj [("$in", .arr [])]) = false ∧
      matchesOperators rx v (.obj [("$nin", .arr [])]) = false := by
  constructor <;>
    simp [matchesOperators, matchOps.eq_def, evalSimpleOp, startsDollar]

/-- C3 counterexample: the operator matcher on `{$nin: []}` applied to the
value `1` returns false, whereas the claim asserts it returns true. -/
theorem c3_counterexample :
    matchesOperators rxNone (.num 1) (.obj [("$nin", .arr [])]) = false := by
  simp [matchesOperators, matchOps.eq_def, evalSimpleOp, startsDollar]

/-- C4: `{$eq: c}` is deep equality `isEqual` (element-wise and
order-sensitive on arrays, key-set based on records, instant-based on
dates, identity on primitives), not strict reference equality; in
particular `{$eq: {a: 1}}` matches a distinct object `{a: 1}` even though
strict equality on two distinct objects is false, and records compare
regardless of key order. -/
theorem c4_eq_is_deep_equality :
    (∀ (rx : String → String → Bool) (v c : Value),
        matchesOperators rx v (.obj [("$eq", c)]) = isEqual v c) ∧
      (∀ (x y : Value) (xs ys : List Value),
        isEqual (.arr (x :: xs)) (.arr (y :: ys)) =
          (isEqual x y && isEqual (.arr xs) (.arr ys))) ∧
      (∀ xs : List Value, isEqual (.arr []) (.arr xs) = xs.isEmpty) ∧
      (∀ t1 t2 : Int, isEqual (.date t1) (.date t2) = (t1 == t2)) ∧
      (∀ a b : Int, isEqual (.num a) (.num b) = (a == b)) ∧
      isEqual (.obj [("a", .num 1), ("b", .num 2)])
        (.obj [("b", .num 2), ("a", .num 1)]) = true ∧
      jsStrictEq (.obj [("a", .num 1)]) (.obj [("a", .num 1)]) = false ∧
      (∀ rx : String → String → Bool,
        matchesOperators rx (.obj [("a", .num 1)])
          (.obj [("$eq", .obj [("a", .num 1)])]) = true) := by
  refine ⟨matchesOperators_single_eq, ?_, ?_, ?_, ?_, ?_, rfl, ?_⟩
  · intro x y xs ys
    simp [isEqual, isEqualList]
  · intro xs
    cases xs <;> simp [isEqual, isEqualList]
  · intro t1 t2
    simp [isEqual]
  · intro a b
    simp [isEqual]
  · simp [isEqual, isEqualFields, lookupEq]
  · intro rx
    rw [matchesOperators_single_eq]
    simp [isEqual, isEqualFields, lookupEq]

/-- C8: the four range operators compare numbers numerically, strings
lexicographically and dates by instant, and return false on every
type-mismatched pair (including string against number). -/
theorem c8_range_operator_typing :
    (∀ (rx : String → String → Bool) (a b : Int),
        matchesOperators rx (.num a) (.obj [("$gt", .num b)]) = decide (a > b) ∧
        matchesOperators rx (.num a) (.obj [("$gte", .num b)]) = decide (a ≥ b) ∧
        matchesOperators rx (.num a) (.obj [("$lt", .num b)]) = decide (a < b) ∧
        matchesOperators rx (.num a) (.obj [("$lte", .num b)]) = decide (a ≤ b)) ∧
      (∀ (rx : String → String → Bool) (s1 s2 : String),
        matchesOperators rx (.str s1) (.obj [("$gt", .str s2)]) = strLt s2 s1 ∧
        matchesOperators rx (.str s1) (.obj [("$gte", .str s2)]) = !strLt s1 s2 ∧
        matchesOperators rx (.str s1) (.obj [("$lt", .str s2)]) = strLt s1 s2 ∧
        matchesOperators rx (.str s1) (.obj [("$lte", .str s2)]) = !strLt s2 s1) ∧
      (∀ (rx : String → String → Bool) (t1 t2 : Int),
        matchesOperators rx (.date t1) (.obj [("$gt", .date t2)]) = decide (t1 > t2) ∧
        matchesOperators rx (.date t1) (.obj [("$gte", .date t2)]) = decide (t1 ≥ t2) ∧
        matchesOperators rx (.date t1) (.obj [("$lt", .date t2)]) = decide (t1 < t2) ∧
        matchesOperators rx (.date t1) (.obj [("$lte", .date t2)]) = decide (t1 ≤ t2)) ∧
      (∀ (rx : String → String → Bool) (v c : Value),
        (isNumber v && isNumber c) = false →
        (isString v && isString c) = false →
        (isDate v && isDate c) = false →
        matchesOperators rx v (.obj [("$gt", c)]) = false ∧
        matchesOperators rx v (.obj [("$gte", c)]) = false ∧
        matchesOperators rx v (.obj [("$lt", c)]) = false ∧
        matchesOperators rx v (.obj [("$lte", c)]) = false) := by
  refine ⟨?_, ?_, ?_, ?_⟩
  · intro rx a b
    refine ⟨?_, ?_, ?_, ?_⟩ <;>
      simp [matchesOperators_single_gt, matchesOperators_single_gte,
        matchesOperators_single_lt, matchesOperators_single_lte,
        isGreaterThan, isGreaterThanOrEqual, isLessThan, isLessThanOrEqual,
        isDateGreaterThan, isDateGreaterThanOrEqual, isDateLessThan,
        isDateLessThanOrEqual]
  · intro rx s1 s2
    refine ⟨?_, ?_, ?_, ?_⟩ <;>
      simp [matchesOperators_single_gt, matchesOperators_single_gte,
        matchesOperators_single_lt, matchesOperators_single_lte,
        isGreaterThan, isGreaterThanOrEqual, isLessThan, isLessThanOrEqual,
        isDateGreaterThan, isDateGreaterThanOrEqual, isDateLessThan,
        isDateLessThanOrEqual]
  · intro rx t1 t2
    refine ⟨?_, ?_, ?_, ?_⟩ <;>
      simp [matchesOperators_single_gt, matchesOperators_single_gte,
        matchesOperators_single_lt, matchesOperators_single_lte,
        isGreaterThan, isGreaterThanOrEqual, isLessThan, isLessThanOrEqual,
        isDateGreaterThan, isDateGreaterThanOrEqual, isDateLessThan,
        isDateLessThanOrEqual]
  · intro rx v c h1 h2 h3
    refine ⟨?_, ?_, ?_, ?_⟩
    · rw [matchesOperators_single_gt]
      cases v <;> cases c <;>
        simp_all [isGreaterThan, isDateGreaterThan, isNumber, isString, isDate]
    · rw [matchesOperators_single_gte]
      cases v <;> cases c <;>
        simp_all [isGreaterThanOrEqual, isDateGreaterThanOrEqual, isNumber,
          isString, isDate]
    · rw [matchesOperators_single_lt]
      cases v <;> cases c <;>
        simp_all [isLessThan, isDateLessThan, isNumber, isString, isDate]
    · rw [matchesOperators_single_lte]
      cases v <;> cases c <;>
        simp_all [isLessThanOrEqual, isDateLessThanOrEqual, isNumber,
          isString, isDate]

/-- Witness for C8 at a concrete type-mismatched pair: the string "5"
against the number 3 fails `$gt` and `$lte`. -/
theorem c8_range_operator_typing_witness :
    matchesOperators rxNone (.str "5") (.obj [("$gt", .num 3)]) = false ∧
      matchesOperators rxNone (.str "5") (.obj [("$lte", .num 3)]) = false :=
  ⟨(c8_range_operator_typing.2.2.2 rxNone (.str "5") (.num 3) rfl rfl rfl).1,
   (c8_range_operator_typing.2.2.2 rxNone (.str "5") (.num 3) rfl rfl rfl).2.2.2⟩

/-- C2: when a field condition is a mapping whose `$exists` key holds a
boolean, `matchesFilter` tests `$exists` against structural path
existence (`pathExists`), and exactly when that test holds and other
operator keys remain, it evaluates the remaining operators against the
resolved value; in particular `{field: {$exists: true}}` matches a record
whose field is present with value null. -/
theorem c2_exists_structural_first :
    (∀ (rx : String → String → Bool) (ofs cfs : List (String × Value))
        (k : String) (b : Bool),
        isLogicalKey k = false →
        lookupField cfs "$exists" = some (.bool b) →
        matchesFilter rx (.obj ofs) (.obj [(k, .obj cfs)]) =
          ((b == pathExists (.obj ofs) k) &&
            (let others := cfs.filter (fun kv => kv.1 != "$exists")
             others.isEmpty ||
               matchesOperators rx (getValueByPath (.obj ofs) k) (.obj others)))) ∧
      (∀ (rx : String → String → Bool) (k : String)
          (rest : List (String × Value)),
        isLogicalKey k = false → (k == "") = false → hasDot k = false →
        matchesFilter rx (.obj ((k, .null) :: rest))
          (.obj [(k, .obj [("$exists", .bool true)])]) = true) := by
  constructor
  · intro rx ofs cfs k b hk hex
    simp [matchesFilter, fieldsOk, hk, hex, isUndefined, isObject]
  · intro rx k rest hk hne hdot
    simp [matchesFilter, fieldsOk, hk, isUndefined, isObject, lookupField,
      pathExists, jsFalsy, hne, hdot, hasProp]

/-- Witness for C2: `{a: {$exists: true}}` matches the record `{a: null}`. -/
theorem c2_exists_structural_first_witness :
    matchesFilter rxNone (.obj [("a", .null)])
      (.obj [("a", .obj [("$exists", .bool true)])]) = true :=
  c2_exists_structural_first.2 rxNone "a" [] rfl rfl rfl

/-- C7 counterexample: resolving the path "a.0" on `{a: [10, 20]}` yields
the element 10, not the absent sentinel, although the intermediate value
is an array and not a plain object. -/
theorem c7_counterexample :
    getValueByPath (.obj [("a", .arr [.num 10, .num 20])]) "a.0" = .num 10 ∧
      Value.num 10 ≠ Value.undefined := by
  constructor
  · rfl
  · intro h
    exact Value.noConfusion h

/-- C7 (amended): `getValueByPath` short-circuits to the absent sentinel
only when an intermediate value is null or undefined; a non-nullish,
non-object intermediate such as an array or a string is indexed natively
(numeric segments and `length` traverse it), while `pathExists` does
treat any non-plain-object intermediate as non-traversable. -/
theorem c7_path_resolution_amended :
    (∀ (v : Value) (ofs : List (String × Value)),
        isNullOrUndefined v = true →
        getValueByPath (.obj (("a", v) :: ofs)) "a.b" = .undefined) ∧
      (∀ x y : Value, getValueByPath (.obj [("a", .arr [x, y])]) "a.1" = y) ∧
      (∀ x y : Value,
        getValueByPath (.obj [("a", .arr [x, y])]) "a.length" = .num 2) ∧
      (∀ x y : Value, pathExists (.obj [("a", .arr [x, y])]) "a.1" = false) ∧
      getValueByPath (.obj [("a", .str "hi")]) "a.0" = .str "h" := by
  refine ⟨?_, ?_, ?_, ?_, rfl⟩
  · intro v ofs hv
    simp [getValueByPath, jsFalsy, hasDot, splitDots, splitOnChar, getField,
      lookupField, hv]
  · intro x y
    simp [getValueByPath, jsFalsy, hasDot, splitDots, splitOnChar, getField,
      lookupField, canonIndex, isNullOrUndefined]
  · intro x y
    simp [getValueByPath, jsFalsy, hasDot, splitDots, splitOnChar, getField,
      lookupField, canonIndex, isNullOrUndefined]
  · intro x y
    simp [pathExists, jsFalsy, hasDot, splitDots, splitOnChar, existsWalk,
      getField, lookupField, isNullOrUndefined, isObject, hasProp]

/-- Witness for C7 (amended) at a null intermediate. -/
theorem c7_path_resolution_amended_witness :
    getValueByPath (.obj [("a", .null)]) "a.b" = .undefined :=
  c7_path_resolution_amended.1 .null [] rfl

/-- C5: in the sort comparator a record whose value at the (first
distinguishing) key is nullish compares after any record with a present
value there, for either direction; for a single-key `orderBy` the sorted
output is the sorted present-valued records followed by the absent-valued
records in input order; and the spec example sorts as stated. -/
theorem c5_absent_values_sort_last :
    (∀ (k : String) (d : Dir) (rest : List (String × Dir)) (a b : Value),
        isNullOrUndefined (getValueByPath a k) = true →
        isNullOrUndefined (getValueByPath b k) = false →
        sortCmp ((k, d) :: rest) a b = 1 ∧ sortCmp ((k, d) :: rest) b a = -1) ∧
      (∀ (l : List Value) (k : String) (d : Dir),
        applySorting l [(k, d)] =
          applySorting
              (l.filter fun r => !isNullOrUndefined (getValueByPath r k)) [(k, d)] ++
            l.filter fun r => isNullOrUndefined (getValueByPath r k)) ∧
      findMany rxNone
          [.obj [("n", .num 2)], .obj [("n", .null)], .obj [("n", .num 1)]]
          { orderBy := [("n", Dir.desc)] } =
        [.obj [("n", .num 2)], .obj [("n", .num 1)], .obj [("n", .null)]] := by
  refine ⟨?_, ?_, ?_⟩
  · intro k d rest a b ha hb
    constructor <;> simp [sortCmp, ha, hb]
  · intro l k d
    have hsplit := sortByCmp_split (sortCmp [(k, d)])
      (fun r => !isNullOrUndefined (getValueByPath r k)) l
      (fun a b hpa hpb => by
        have ha : isNullOrUndefined (getValueByPath a k) = true := by
          simpa using hpa
        have hb : isNullOrUndefined (getValueByPath b k) = false := by
          simpa using hpb
        simp [sortCmp, ha, hb])
      (fun a b hpa hpb => by
        have ha : isNullOrUndefined (getValueByPath a k) = false := by
          simpa using hpa
        have hb : isNullOrUndefined (getValueByPath b k) = true := by
          simpa using hpb
        simp [sortCmp, ha, hb])
      (fun a b hpa hpb => by
        have ha : isNullOrUndefined (getValueByPath a k) = true := by
          simpa using hpa
        have hb : isNullOrUndefined (getValueByPath b k) = true := by
          simpa using hpb
        simp [sortCmp, ha, hb])
    have hfe : (l.filter fun r => !(!isNullOrUndefined (getValueByPath r k))) =
        l.filter fun r => isNullOrUndefined (getValueByPath r k) := by
      apply List.filter_congr
      intro a _
      simp
    rw [applySorting, applySorting]
    simp only [List.isEmpty_cons, if_false, Bool.false_eq_true]
    rw [hsplit, hfe]
  · simp [findMany, resolveWhere, matchesFilter, applySorting, sortByCmp,
      insertByCmp, sortCmp, compareValues, getValueByPath, getField,
      lookupField, jsFalsy, hasDot, jsStrictEq, typeOf, isNullOrUndefined,
      isObject]

/-- Witness for C5: a record with null `n` compares after a record with
`n = 1` under `desc`. -/
theorem c5_absent_values_sort_last_witness :
    sortCmp [("n", Dir.desc)] (.obj [("n", .null)]) (.obj [("n", .num 1)]) = 1 ∧
      sortCmp [("n", Dir.desc)] (.obj [("n", .num 1)]) (.obj [("n", .null)]) = -1 :=
  c5_absent_values_sort_last.1 "n" Dir.desc [] (.obj [("n", .null)])
    (.obj [("n", .num 1)]) rfl rfl

/-- Restriction of `applySorting` to a comparator tie-class is the
identity permutation (stability). -/
theorem filter_applySorting (p : Value → Bool) (items : List Value)
    (ob : List (String × Dir))
    (h : ∀ a b, p a = true → p b = true → sortCmp ob a b = 0) :
    (applySorting items ob).filter p = items.filter p := by
  unfold applySorting
  split
  · rfl
  · exact filter_sortByCmp _ p items h

/-- C6: `findMany`'s sort is a stable multi-key sort: a tie on one key
defers to the remaining `orderBy` entries in order, records inside any
comparator tie-class keep their relative input order (sorting changes
nothing about the subsequence of such a class), and a concrete two-key
query is ordered by the second key on a first-key tie. -/
theorem c6_stable_multikey_sort :
    (∀ (k : String) (d : Dir) (rest : List (String × Dir)) (a b : Value),
        isNullOrUndefined (getValueByPath a k) = false →
        isNullOrUndefined (getValueByPath b k) = false →
        compareValues (getValueByPath a k) (getValueByPath b k) = 0 →
        sortCmp ((k, d) :: rest) a b = sortCmp rest a b) ∧
      (∀ (rx : String → String → Bool) (objects : List Value) (wq : Option Value)
          (ob : List (String × Dir)) (p : Value → Bool),
        (∀ a b, p a = true → p b = true → sortCmp ob a b = 0) →
        (findMany rx objects { whereQ := wq, orderBy := ob }).filter p =
          (findMany rx objects { whereQ := wq, orderBy := [] }).filter p) ∧
      findMany rxNone
          [.obj [("a", .num 1), ("b", .num 2)],
           .obj [("a", .num 1), ("b", .num 1)]]
          { orderBy := [("a", Dir.asc), ("b", Dir.asc)] } =
        [.obj [("a", .num 1), ("b", .num 1)],
         .obj [("a", .num 1), ("b", .num 2)]] := by
  refine ⟨?_, ?_, ?_⟩
  · intro k d rest a b ha hb hcmp
    simp [sortCmp, ha, hb, hcmp]
  · intro rx objects wq ob p h
    simp only [findMany]
    cases he : objects.isEmpty
    · simp only [he, Bool.false_eq_true, if_false]
      rw [filter_applySorting p _ ob h]
      rw [filter_applySorting p _ [] (fun a b _ _ => rfl)]
    · simp [he]
  · simp [findMany, resolveWhere, matchesFilter, applySorting, sortByCmp,
      insertByCmp, sortCmp, compareValues, getValueByPath, getField,
      lookupField, jsFalsy, hasDot, jsStrictEq, typeOf, isNullOrUndefined,
      isObject]

/-- Witness for C6: sorting two records that tie (both lack the sort key)
leaves their relative order unchanged. -/
theorem c6_stable_multikey_sort_witness :
    (findMany rxNone [.obj [("z", .num 1)], .obj [("z", .num 2)]]
          { orderBy := [("m", Dir.asc)] }).filter
        (fun r => isNullOrUndefined (getValueByPath r "m")) =
      (findMany rxNone [.obj [("z", .num 1)], .obj [("z", .num 2)]]
          { whereQ := none, orderBy := [] }).filter
        (fun r => isNullOrUndefined (getValueByPath r "m")) :=
  c6_stable_multikey_sort.2.1 rxNone [.obj [("z", .num 1)], .obj [("z", .num 2)]]
    none [("m", Dir.asc)] (fun r => isNullOrUndefined (getValueByPath r "m"))
    (fun a b ha hb => by simp only at ha hb; simp [sortCmp, ha, hb])

/-- On a plain-object record, the single-key fast path of `findMany`
(`obj[field] === cond`) agrees with `matchesFilter` whenever the key is
nonempty and non-logical and the condition is not `undefined`. -/
theorem fastPath_matchesFilter (rx : String → String → Bool) (f : String)
    (c : Value) (ofs : List (String × Value))
    (hf1 : (f == "") = false) (hf2 : isLogicalKey f = false)
    (hc : isUndefined c = false) (helig : fastPathEligible f c = true) :
    jsStrictEq (getField (.obj ofs) f) c =
      matchesFilter rx (.obj ofs) (.obj [(f, c)]) := by
  simp only [fastPathEligible, Bool.and_eq_true] at helig
  obtain ⟨hdot', hcond⟩ := helig
  have hdot : hasDot f = false := by simpa using hdot'
  have hval : getValueByPath (.obj ofs) f = getField (.obj ofs) f := by
    simp [getValueByPath, jsFalsy, hf1, hdot]
  cases c with
  | undefined => simp [isUndefined] at hc
  | date t => simp [isObject, isArray] at hcond
  | arr l => simp [isObject, isArray] at hcond
  | obj l => simp [isObject, isArray] at hcond
  | null =>
      simp [matchesFilter, isObject, hf2, isUndefined, fieldsOk, hval,
        matchesOperators]
  | bool b =>
      simp [matchesFilter, isObject, hf2, isUndefined, fieldsOk, hval,
        matchesOperators]
  | num n =>
      simp [matchesFilter, isObject, hf2, isUndefined, fieldsOk, hval,
        matchesOperators]
  | str s =>
      simp [matchesFilter, isObject, hf2, isUndefined, fieldsOk, hval,
        matchesOperators]

/-- C1 (amended): with no `orderBy`, `findFirst` returns exactly the head
of `findMany` for plain-object records, for every array-valued `where`,
and for every mapping `where` except a single-key mapping that takes the
primitive-equality fast path with an empty or logical key or an
`undefined` condition (the cases the counterexample exhibits). -/
theorem c1_findFirst_is_head_of_findMany (rx : String → String → Bool)
    (objects : List Value) (wq : Option Value)
    (hobj : ∀ o ∈ objects, isPlainObject o = true)
    (hsafe : whereSafe (resolveWhere wq)) :
    findFirst rx objects { whereQ := wq, orderBy := [] } =
      (findMany rx objects { whereQ := wq, orderBy := [] }).head? := by
  simp only [findFirst, findMany]
  cases he : objects.isEmpty
  · simp only [he, Bool.false_eq_true, if_false]
    rw [applySorting]
    simp only [List.isEmpty_nil, if_true]
    cases hw : resolveWhere wq with
    | arr conds => exact find?_eq_filter_head _ _
    | date t => exact find?_eq_filter_head _ _
    | null => rw [hw] at hsafe; exact hsafe.elim
    | undefined => rw [hw] at hsafe; exact hsafe.elim
    | bool b => rw [hw] at hsafe; exact hsafe.elim
    | num n => rw [hw] at hsafe; exact hsafe.elim
    | str s => rw [hw] at hsafe; exact hsafe.elim
    | obj ffs =>
        rw [hw] at hsafe
        match ffs with
        | [] => exact find?_eq_filter_head _ _
        | (k1, v1) :: (k2, v2) :: rest => exact find?_eq_filter_head _ _
        | [(f, c)] =>
            show List.find? (fun o => matchesFilter rx o (Value.obj [(f, c)])) objects =
              (if fastPathEligible f c = true then
                  List.filter (fun o => jsStrictEq (getField o f) c) objects
                else
                  List.filter (fun o => matchesFilter rx o (Value.obj [(f, c)]))
                    objects).head?
            by_cases helig : fastPathEligible f c = true
            · obtain ⟨hf1, hf2, hc⟩ := hsafe helig
              rw [if_pos helig, find?_eq_filter_head]
              congr 1
              apply List.filter_congr
              intro o ho
              have hpo := hobj o ho
              cases o with
              | obj ofs =>
                  exact (fastPath_matchesFilter rx f c ofs hf1 hf2 hc helig).symm
              | null => simp [isPlainObject] at hpo
              | undefined => simp [isPlainObject] at hpo
              | bool b => simp [isPlainObject] at hpo
              | num n => simp [isPlainObject] at hpo
              | str s => simp [isPlainObject] at hpo
              | date t => simp [isPlainObject] at hpo
              | arr l => simp [isPlainObject] at hpo
            · rw [if_neg helig]
              exact find?_eq_filter_head _ _
  · simp [he]

/-- Witness for C1 (amended) on a fast-path query: `findFirst` equals the
head of `findMany` for `{a: 1}` over two records. -/
theorem c1_findFirst_is_head_of_findMany_witness :
    findFirst rxNone [.obj [("a", .num 2)], .obj [("a", .num 1)]]
        { whereQ := some (.obj [("a", .num 1)]), orderBy := [] } =
      (findMany rxNone [.obj [("a", .num 2)], .obj [("a", .num 1)]]
          { whereQ := some (.obj [("a", .num 1)]), orderBy := [] }).head? :=
  c1_findFirst_is_head_of_findMany rxNone _ _
    (by intro o ho; simp at ho; rcases ho with h | h <;> simp [h, isPlainObject])
    (by intro h; exact ⟨rfl, rfl, rfl⟩)

/-- C1 counterexample: three single-key `where` mappings on which
`findMany` takes the primitive-equality fast path but `findFirst` (which
always uses `matchesFilter`) disagrees: an `undefined` condition, an
empty-string key, and a logical-operator key with a primitive condition.
In each pair the claim asserts `findFirst = findMany.head?`, yet one side
matches and the other does not. -/
theorem c1_counterexample :
    (findMany rxNone [.obj [("a", .num 1)]]
        { whereQ := some (.obj [("a", .undefined)]), orderBy := [] } = [] ∧
      findFirst rxNone [.obj [("a", .num 1)]]
        { whereQ := some (.obj [("a", .undefined)]), orderBy := [] } =
          some (.obj [("a", .num 1)])) ∧
    (findMany rxNone [.obj [("", .num 5)]]
        { whereQ := some (.obj [("", .num 5)]), orderBy := [] } =
          [.obj [("", .num 5)]] ∧
      findFirst rxNone [.obj [("", .num 5)]]
        { whereQ := some (.obj [("", .num 5)]), orderBy := [] } = none) ∧
    (findMany rxNone [.obj [("$and", .num 6)]]
        { whereQ := some (.obj [("$and", .num 5)]), orderBy := [] } = [] ∧
      findFirst rxNone [.obj [("$and", .num 6)]]
        { whereQ := some (.obj [("$and", .num 5)]), orderBy := [] } =
          some (.obj [("$and", .num 6)])) := by
  refine ⟨⟨?_, ?_⟩, ⟨?_, ?_⟩, ⟨?_, ?_⟩⟩ <;>
    simp [findMany, findFirst, resolveWhere, fastPathEligible, applySorting,
      matchesFilter, fieldsOk, andOk, orOk, notOk, norOk, isLogicalKey,
      isUndefined, isObject, isArray, jsStrictEq, getField, lookupField,
      getValueByPath, jsFalsy, hasDot, matchesOperators]

/-! ## Grouping lemmas -/

theorem lookupBucket_addToGroups (key : String) (o : Value)
    (gs : List (String × List Value)) (n : String) :
    lookupBucket n (addToGroups key o gs) =
      if n = key then some ((lookupBucket key gs).getD [] ++ [o])
      else lookupBucket n gs := by
  induction gs with
  | nil =>
      by_cases h : n = key
      · simp [addToGroups, lookupBucket, h]
      · have hkn : (key == n) = false := by
          rw [beq_eq_false_iff_ne]
          exact fun hh => h hh.symm
        simp [addToGroups, lookupBucket, hkn, h]
  | cons g rest ih =>
      obtain ⟨k, items⟩ := g
      by_cases hk : (k == key) = true
      · have hk2 : k = key := by simpa using hk
        subst hk2
        by_cases hn : n = k
        · subst hn
          simp [addToGroups, lookupBucket]
        · have : (k == n) = false := by
            simpa using fun hh => hn (by simpa using hh.symm)
          simp [addToGroups, lookupBucket, this, hn]
      · by_cases hn : (k == n) = true
        · have hn2 : k = n := by simpa using hn
          subst hn2
          have : ¬k = key := by simpa using hk
          simp [addToGroups, lookupBucket, hk, this]
        · simp [addToGroups, lookupBucket, hk, hn, ih]

theorem lookupBucket_buildGroups (field : String) (l : List Value) :
    ∀ (gs : List (String × List Value)) (n : String),
    lookupBucket n (buildGroups field l gs) =
      if ((lookupBucket n gs).isSome ||
          l.any fun r => jsGroupKey field r == n) = true
      then some ((lookupBucket n gs).getD [] ++
        l.filter fun r => jsGroupKey field r == n)
      else none := by
  induction l with
  | nil =>
      intro gs n
      cases h : lookupBucket n gs <;> simp [buildGroups, h]
  | cons r rest ih =>
      intro gs n
      rw [buildGroups, ih]
      rw [lookupBucket_addToGroups]
      by_cases hn : n = jsGroupKey field r
      · have hr : (jsGroupKey field r == n) = true := by simp [hn]
        simp only [if_pos hn.symm, hn, List.any_cons, hr, Bool.true_or,
          Option.isSome_some, Bool.or_self, if_true, Option.getD_some,
          List.filter_cons_of_pos hr, Bool.true_eq]
        cases hbase : lookupBucket (jsGroupKey field r) gs <;> simp [hbase]
      · have hr : (jsGroupKey field r == n) = false := by
          simpa using fun hh => hn (by simpa using hh.symm)
        have hne : ¬n = jsGroupKey field r := hn
        have hf : (List.filter (fun x => jsGroupKey field x == n) (r :: rest)) =
            List.filter (fun x => jsGroupKey field x == n) rest :=
          List.filter_cons_of_neg (by simp [hr])
        simp only [if_neg hne, List.any_cons, hr, Bool.false_or, hf]

theorem mem_of_lookupBucket (n : String) (its : List Value)
    (gs : List (String × List Value)) (h : lookupBucket n gs = some its) :
    (n, its) ∈ gs := by
  induction gs with
  | nil => simp [lookupBucket] at h
  | cons g rest ih =>
      obtain ⟨k, items⟩ := g
      by_cases hk : (k == n) = true
      · rw [lookupBucket, if_pos hk] at h
        have : k = n := by simpa using hk
        subst this
        simp [Option.some_inj.mp h]
      · rw [lookupBucket, if_neg (by simpa using hk)] at h
        exact List.mem_cons_of_mem _ (ih h)

theorem lookupBucket_of_mem (g : String × List Value)
    (gs : List (String × List Value)) (hg : g ∈ gs)
    (hnd : (gs.map Prod.fst).Nodup) : lookupBucket g.1 gs = some g.2 := by
  induction gs with
  | nil => simp at hg
  | cons g2 rest ih =>
      obtain ⟨k, items⟩ := g2
      rcases List.mem_cons.mp hg with h | h
      · subst h
        simp [lookupBucket]
      · have hk : (k == g.1) = false := by
          rw [beq_eq_false_iff_ne]
          intro hke
          have hmem : k ∈ rest.map Prod.fst := by
            rw [hke]
            exact List.mem_map.mpr ⟨g, h, rfl⟩
          exact (List.nodup_cons.mp (by simpa using hnd)).1 hmem
        rw [lookupBucket, if_neg (by simp [hk])]
        exact ih h (List.nodup_cons.mp (by simpa using hnd)).2

theorem addToGroups_names (key : String) (o : Value)
    (gs : List (String × List Value)) :
    (addToGroups key o gs).map Prod.fst =
      if ((gs.map Prod.fst).contains key) = true then gs.map Prod.fst
      else gs.map Prod.fst ++ [key] := by
  induction gs with
  | nil => simp [addToGroups]
  | cons g rest ih =>
      obtain ⟨k, items⟩ := g
      by_cases hk : (k == key) = true
      · have hk2 : (key == k) = true := by
          have : k = key := by simpa using hk
          simp [this]
        simp [addToGroups, hk, List.contains_cons, hk2]
      · have hk4 : (k == key) = false := by simpa using hk
        have hk3 : (key == k) = false := by
          rw [beq_eq_false_iff_ne]
          intro hh
          exact hk (by simp [hh])
        simp only [addToGroups, hk4, Bool.false_eq_true, if_false,
          List.map_cons, List.contains_cons, hk3, Bool.false_or, ih]
        cases hr : ((rest.map Prod.fst).contains key) with
        | true => simp [hr]
        | false => simp [hr]

theorem buildGroups_names_nodup (field : String) (l : List Value) :
    ∀ gs : List (String × List Value),
      (gs.map Prod.fst).Nodup → ((buildGroups field l gs).map Prod.fst).Nodup := by
  induction l with
  | nil => intro gs h; exact h
  | cons r rest ih =>
      intro gs h
      show ((buildGroups field rest
        (addToGroups (jsGroupKey field r) r gs)).map Prod.fst).Nodup
      apply ih
      rw [addToGroups_names]
      cases hc : ((gs.map Prod.fst).contains (jsGroupKey field r)) with
      | true => simpa [hc] using h
      | false =>
          rw [if_neg (by simp [hc])]
          refine List.Nodup.append h (List.nodup_singleton _) ?_
          intro a ha hb
          have hab : a = jsGroupKey field r := by simpa using hb
          have hcon : (gs.map Prod.fst).contains (jsGroupKey field r) = true :=
            List.contains_iff_exists_mem_beq.mpr ⟨a, ha, by simp [hab]⟩
          rw [hc] at hcon
          exact Bool.noConfusion hcon

theorem insertIdx_perm (x : Nat × (String × List Value))
    (l : List (Nat × (String × List Value))) :
    (insertIdx x l).Perm (x :: l) := by
  induction l with
  | nil => exact List.Perm.refl _
  | cons y ys ih =>
      by_cases hc : x.1 ≤ y.1
      · rw [insertIdx, if_pos hc]
      · rw [insertIdx, if_neg hc]
        exact (List.Perm.cons y ih).trans (List.Perm.swap x y ys)

theorem sortIdx_perm (l : List (Nat × (String × List Value))) :
    (sortIdx l).Perm l := by
  induction l with
  | nil => exact List.Perm.refl _
  | cons x rest ih =>
      exact (insertIdx_perm x _).trans (List.Perm.cons x ih)

theorem idxEntries_map_snd (gs : List (String × List Value)) :
    (gs.filterMap (fun g => (canonIndex g.1).map (fun n => (n, g)))).map Prod.snd =
      gs.filter (fun g => (canonIndex g.1).isSome) := by
  induction gs with
  | nil => rfl
  | cons g rest ih =>
      cases h : canonIndex g.1 <;>
        simp [List.filterMap_cons, h, List.filter_cons, ih]

theorem filter_split_perm {α : Type} (p : α → Bool) (l : List α) :
    (l.filter p ++ l.filter fun x => !p x).Perm l := by
  induction l with
  | nil => exact List.Perm.refl _
  | cons x rest ih =>
      cases h : p x
      · rw [List.filter_cons_of_neg (by simp [h]),
          List.filter_cons_of_pos (by simp [h])]
        exact List.perm_middle.trans (List.Perm.cons x ih)
      · rw [List.filter_cons_of_pos (by simp [h]),
          List.filter_cons_of_neg (by simp [h])]
        exact List.Perm.cons x ih

theorem jsEntriesOrder_perm (gs : List (String × List Value)) :
    (jsEntriesOrder gs).Perm gs := by
  unfold jsEntriesOrder
  have h1 := (sortIdx_perm
    (gs.filterMap fun g => (canonIndex g.1).map fun n => (n, g))).map Prod.snd
  have h2 : ((gs.filterMap fun g =>
      (canonIndex g.1).map fun n => (n, g)).map Prod.snd) =
      gs.filter fun g => (canonIndex g.1).isSome := idxEntries_map_snd gs
  have h3 : (gs.filter fun g => (canonIndex g.1).isNone) =
      gs.filter fun g => !(canonIndex g.1).isSome := by
    apply List.filter_congr
    intro g _
    cases canonIndex g.1 <;> simp
  rw [h3]
  refine (List.Perm.append ?_ (List.Perm.refl _)).trans
    (filter_split_perm (fun g => (canonIndex g.1).isSome) gs)
  exact h1.trans (by rw [h2])

theorem jsEntriesOrder_of_no_index (gs : List (String × List Value))
    (h : ∀ g ∈ gs, (canonIndex g.1).isNone = true) : jsEntriesOrder gs = gs := by
  unfold jsEntriesOrder
  have h1 : (gs.filterMap fun g => (canonIndex g.1).map fun n => (n, g)) = [] := by
    induction gs with
    | nil => rfl
    | cons g rest ih =>
        have hg := h g (by simp)
        rw [List.filterMap_cons]
        cases hc : canonIndex g.1 with
        | none => exact ih (fun g2 hg2 => h g2 (by simp [hg2]))
        | some n => rw [hc] at hg; simp at hg
  have h2 : (gs.filter fun g => (canonIndex g.1).isNone) = gs :=
    List.filter_eq_self.mpr h
  rw [h1, h2]
  rfl

theorem buildGroups_names_firstSeen (field : String) (l : List Value) :
    ∀ gs : List (String × List Value),
      (buildGroups field l gs).map Prod.fst =
        firstSeenFrom field (gs.map Prod.fst) l := by
  induction l with
  | nil => intro gs; rfl
  | cons r rest ih =>
      intro gs
      show (buildGroups field rest
          (addToGroups (jsGroupKey field r) r gs)).map Prod.fst = _
      rw [ih, firstSeenFrom, addToGroups_names]

theorem sum_map_add_nat (f g : String → Nat) (names : List String) :
    (names.map fun n => f n + g n).sum =
      (names.map f).sum + (names.map g).sum := by
  induction names with
  | nil => rfl
  | cons n rest ih =>
      simp only [List.map_cons, List.sum_cons, ih]
      omega

theorem sum_indicator_count (a : String) (names : List String) :
    (names.map fun n => if a == n then 1 else 0).sum = names.count a := by
  rw [List.count]
  induction names with
  | nil => rfl
  | cons n2 rest2 ih2 =>
      rw [List.map_cons, List.sum_cons, List.countP_cons, ih2]
      by_cases h : a = n2
      · simp [h, Nat.add_comm]
      · have h1 : (a == n2) = false := by
          rw [beq_eq_false_iff_ne]; exact h
        have h2 : (n2 == a) = false := by
          rw [beq_eq_false_iff_ne]; exact fun hh => h hh.symm
        simp [h1, h2]

theorem sum_filter_lengths (key : Value → String) (names : List String)
    (l : List Value) (hnd : names.Nodup) (hcov : ∀ r ∈ l, key r ∈ names) :
    (names.map fun n => (l.filter fun r => key r == n).length).sum = l.length := by
  induction l with
  | nil => simp
  | cons r rest ih =>
      have hr := hcov r (by simp)
      have ihr := ih (fun x hx => hcov x (by simp [hx]))
      have hmap : (names.map fun n =>
          ((r :: rest).filter fun x => key x == n).length) =
          names.map fun n =>
            ((if key r == n then 1 else 0) +
              (rest.filter fun x => key x == n).length) := by
        apply List.map_congr_left
        intro n hn
        rw [List.filter_cons]
        cases h : (key r == n) <;> simp [h, Nat.add_comm]
      rw [hmap, sum_map_add_nat, ihr, sum_indicator_count,
        List.count_eq_one_of_mem hnd hr]
      simp [Nat.add_comm]

theorem groupBy_bucket (rx : String → String → Bool) (objects : List Value)
    (field : String) (q : Query) (g : String × List Value)
    (hg : g ∈ groupBy rx objects field q) :
    g.2 = (findMany rx objects q).filter fun r => jsGroupKey field r == g.1 := by
  unfold groupBy at hg
  by_cases he : objects.isEmpty = true
  · simp [he] at hg
  · rw [if_neg he] at hg
    by_cases hf : (findMany rx objects q).isEmpty = true
    · simp [hf] at hg
    · rw [if_neg hf] at hg
      have hg0 : g ∈ buildGroups field (findMany rx objects q) [] :=
        (jsEntriesOrder_perm _).mem_iff.mp hg
      have hnd := buildGroups_names_nodup field (findMany rx objects q) []
        (by simp)
      have hlook := lookupBucket_of_mem g _ hg0 hnd
      rw [lookupBucket_buildGroups] at hlook
      simp only [lookupBucket, Option.isSome_none, Bool.false_or,
        Option.getD_none, List.nil_append] at hlook
      split at hlook
      · exact (Option.some_inj.mp hlook).symm
      · exact Option.noConfusion hlook

theorem groupBy_covers (rx : String → String → Bool) (objects : List Value)
    (field : String) (q : Query) (r : Value)
    (hr : r ∈ findMany rx objects q) :
    ∃ g ∈ groupBy rx objects field q, g.1 = jsGroupKey field r ∧ r ∈ g.2 := by
  have he : objects.isEmpty = false := by
    cases hh : objects.isEmpty
    · rfl
    · rw [findMany, if_pos hh] at hr
      simp at hr
  have hf : (findMany rx objects q).isEmpty = false := by
    cases hh : (findMany rx objects q).isEmpty
    · rfl
    · rw [List.isEmpty_iff] at hh
      rw [hh] at hr
      simp at hr
  have hany : ((findMany rx objects q).any
      fun x => jsGroupKey field x == jsGroupKey field r) = true :=
    List.any_eq_true.mpr ⟨r, hr, by simp⟩
  have hlook := lookupBucket_buildGroups field (findMany rx objects q) []
    (jsGroupKey field r)
  simp only [lookupBucket, Option.isSome_none, Bool.false_or,
    Option.getD_none, List.nil_append, hany, if_true] at hlook
  have hmem := mem_of_lookupBucket _ _ _ hlook
  refine ⟨(jsGroupKey field r,
    (findMany rx objects q).filter fun x => jsGroupKey field x == jsGroupKey field r),
    ?_, rfl, ?_⟩
  · unfold groupBy
    rw [if_neg (by simp [he]), if_neg (by simp [hf])]
    exact (jsEntriesOrder_perm _).mem_iff.mpr hmem
  · exact List.mem_filter.mpr ⟨hr, by simp⟩

theorem groupBy_names_nodup (rx : String → String → Bool) (objects : List Value)
    (field : String) (q : Query) :
    ((groupBy rx objects field q).map Prod.fst).Nodup := by
  unfold groupBy
  by_cases he : objects.isEmpty = true
  · simp [he]
  · rw [if_neg he]
    by_cases hf : (findMany rx objects q).isEmpty = true
    · simp [hf]
    · rw [if_neg hf]
      have hperm := (jsEntriesOrder_perm
        (buildGroups field (findMany rx objects q) [])).map Prod.fst
      exact hperm.nodup_iff.mpr
        (buildGroups_names_nodup field (findMany rx objects q) [] (by simp))

/-- C9 (amended): `groupBy` partitions the `findMany` result: every
group's items are exactly the filtered records bearing its name (in their
filtered relative order), group names are distinct, every filtered record
lies in the group named by its key, the item counts over all groups sum
to the filtered length - but groups appear in order of first occurrence
only when no group name is an integer-like key (JS object semantics hoist
integer-like keys first, in ascending numeric order). -/
theorem c9_groupBy_partition (rx : String → String → Bool)
    (objects : List Value) (field : String) (q : Query) :
    (∀ g ∈ groupBy rx objects field q,
        g.2 = (findMany rx objects q).filter fun r => jsGroupKey field r == g.1) ∧
      ((groupBy rx objects field q).map Prod.fst).Nodup ∧
      (∀ r ∈ findMany rx objects q,
        ∃ g ∈ groupBy rx objects field q, g.1 = jsGroupKey field r ∧ r ∈ g.2) ∧
      ((groupBy rx objects field q).map fun g => g.2.length).sum =
        (findMany rx objects q).length ∧
      ((∀ g ∈ groupBy rx objects field q, (canonIndex g.1).isNone = true) →
        (groupBy rx objects field q).map Prod.fst =
          firstSeenKeys field (findMany rx objects q)) := by
  refine ⟨fun g hg => groupBy_bucket rx objects field q g hg,
    groupBy_names_nodup rx objects field q,
    fun r hr => groupBy_covers rx objects field q r hr, ?_, ?_⟩
  · have h1 : ((groupBy rx objects field q).map fun g => g.2.length) =
        (groupBy rx objects field q).map fun g =>
          ((findMany rx objects q).filter fun r => jsGroupKey field r == g.1).length := by
      apply List.map_congr_left
      intro g hg
      rw [groupBy_bucket rx objects field q g hg]
    rw [h1]
    have h2 : ((groupBy rx objects field q).map fun g =>
        ((findMany rx objects q).filter fun r => jsGroupKey field r == g.1).length) =
        ((groupBy rx objects field q).map Prod.fst).map fun n =>
          ((findMany rx objects q).filter fun r => jsGroupKey field r == n).length := by
      rw [List.map_map]
      rfl
    rw [h2]
    apply sum_filter_lengths
    · exact groupBy_names_nodup rx objects field q
    · intro r hr
      obtain ⟨g, hg, hname, _⟩ := groupBy_covers rx objects field q r hr
      exact List.mem_map.mpr ⟨g, hg, hname⟩
  · intro hnum
    unfold groupBy at hnum ⊢
    by_cases he : objects.isEmpty = true
    · rw [if_pos he] at hnum ⊢
      rw [findMany, if_pos he]
      rfl
    · rw [if_neg he] at hnum ⊢
      by_cases hf : (findMany rx objects q).isEmpty = true
      · rw [if_pos hf] at hnum ⊢
        rw [List.isEmpty_iff.mp hf]
        rfl
      · rw [if_neg hf] at hnum ⊢
        have hnum0 : ∀ g ∈ buildGroups field (findMany rx objects q) [],
            (canonIndex g.1).isNone = true := by
          intro g hg
          exact hnum g ((jsEntriesOrder_perm _).mem_iff.mpr hg)
        rw [jsEntriesOrder_of_no_index _ hnum0,
          buildGroups_names_firstSeen field (findMany rx objects q) []]
        rfl

/-- C9 counterexample: grouping `[{a: 2}, {a: 1}]` by `a` produces the
groups named `"1", "2"` in ascending numeric order, while the order of
first occurrence in the filtered sequence is `"2", "1"`: groups do not
appear in first-seen order when the names are integer-like. -/
theorem c9_counterexample :
    (groupBy rxNone [.obj [("a", .num 2)], .obj [("a", .num 1)]] "a" {}).map
        Prod.fst = ["1", "2"] ∧
      firstSeenKeys "a"
          (findMany rxNone [.obj [("a", .num 2)], .obj [("a", .num 1)]] {}) =
        ["2", "1"] ∧
      (["1", "2"] : List String) ≠ ["2", "1"] := by
  refine ⟨?_, ?_, by decide⟩
  · simp only [groupBy, findMany, resolveWhere, matchesFilter, applySorting,
      buildGroups, addToGroups, jsGroupKey, getValueByPath, getField,
      lookupField, jsFalsy, hasDot, isNullOrUndefined, jsToString,
      jsEntriesOrder, sortIdx, insertIdx, isObject]
    decide
  · simp only [findMany, resolveWhere, matchesFilter, applySorting,
      firstSeenKeys, firstSeenFrom, jsGroupKey, getValueByPath, getField,
      lookupField, jsFalsy, hasDot, isNullOrUndefined, jsToString, isObject]
    decide

/-- Witness for C9: a record is found inside the group bearing its key. -/
theorem c9_groupBy_partition_witness :
    ∃ g ∈ groupBy rxNone [.obj [("cat", .str "a")]] "cat" {},
      g.1 = jsGroupKey "cat" (.obj [("cat", .str "a")]) ∧
        (Value.obj [("cat", .str "a")]) ∈ g.2 :=
  (c9_groupBy_partition rxNone [.obj [("cat", .str "a")]] "cat" {}).2.2.1
    (.obj [("cat", .str "a")])
    (by simp [findMany, resolveWhere, matchesFilter, applySorting, isObject])

/-- C10: in `groupBy` the bucket key is `String(value ?? 'undefined')`, so
a record whose resolved group value is null lands in the group literally
named "undefined" (not "null"), together with records whose value is
absent; every other record lands in the group named by the `String(...)`
form of its value.  The concrete instance groups `{a: null}` and `{b: 1}`
(no `a`) into the single group "undefined". -/
theorem c10_null_groups_under_undefined :
    (∀ (rx : String → String → Bool) (objects : List Value) (field : String)
        (q : Query) (r : Value),
        r ∈ findMany rx objects q →
        isNullOrUndefined (getValueByPath r field) = true →
        ∃ g ∈ groupBy rx objects field q, g.1 = "undefined" ∧ r ∈ g.2) ∧
      (∀ (rx : String → String → Bool) (objects : List Value) (field : String)
          (q : Query) (r : Value),
        r ∈ findMany rx objects q →
        isNullOrUndefined (getValueByPath r field) = false →
        ∃ g ∈ groupBy rx objects field q,
          g.1 = jsToString (getValueByPath r field) ∧ r ∈ g.2) ∧
      groupBy rxNone [.obj [("a", .null)], .obj [("b", .num 1)]] "a" {} =
        [("undefined", [.obj [("a", .null)], .obj [("b", .num 1)]])] := by
  refine ⟨?_, ?_, ?_⟩
  · intro rx objects field q r hr hnull
    obtain ⟨g, hg, hname, hmem⟩ := groupBy_covers rx objects field q r hr
    refine ⟨g, hg, ?_, hmem⟩
    rw [hname, jsGroupKey, hnull]
    simp
  · intro rx objects field q r hr hnn
    obtain ⟨g, hg, hname, hmem⟩ := groupBy_covers rx objects field q r hr
    refine ⟨g, hg, ?_, hmem⟩
    rw [hname, jsGroupKey, hnn]
    simp
  · simp [groupBy, findMany, resolveWhere, matchesFilter, applySorting,
      buildGroups, addToGroups, jsGroupKey, getValueByPath, getField,
      lookupField, jsFalsy, hasDot, isNullOrUndefined, jsToString,
      jsEntriesOrder, sortIdx, insertIdx, isObject, canonIndex, andOk, orOk,
      notOk, norOk, fieldsOk, isLogicalKey, isUndefined]

/-- Witness for C10: the record `{a: null}` is found in the group named
"undefined". -/
theorem c10_null_groups_under_undefined_witness :
    ∃ g ∈ groupBy rxNone [.obj [("a", .null)]] "a" {},
      g.1 = "undefined" ∧ (Value.obj [("a", .null)]) ∈ g.2 :=
  c10_null_groups_under_undefined.1 rxNone [.obj [("a", .null)]] "a" {}
    (.obj [("a", .null)])
    (by simp [findMany, resolveWhere, matchesFilter, applySorting, isObject])
    (by simp [getValueByPath, getField, lookupField, jsFalsy, hasDot,
      isNullOrUndefined])

end MagicQuery
